import Mathlib

/-
  Verification of the Job Portal Skills API core logic (main.py):
  the API-key access gate, the startup credential-set construction,
  the position resolver, the suggestion engine, and the all-jobs
  category assembly.  Python strings are embedded as `List Char`;
  Python dictionaries (insertion-ordered) as association lists.
  The skills catalog (`job_skills`) and the canonical position list
  (`common_positions`) are data imported by main.py; the operations
  are parametric in them, exactly as the handlers are.
-/

deriving instance DecidableEq for Except

namespace JobPortal

/-- Python strings, embedded as lists of characters. -/
abbrev Str := List Char

/-- Characters stripped by Python `str.strip()` (ASCII whitespace). -/
def isPySpace (c : Char) : Bool :=
  c = ' ' || c = '\t' || c = '\n' || c = '\r' || c = '\x0b' || c = '\x0c'

/-- Python `str.strip()`: drop leading and trailing whitespace. -/
def pyStrip (s : Str) : Str :=
  ((s.dropWhile isPySpace).reverse.dropWhile isPySpace).reverse

/-- Python `str.lower()` on one ASCII character. -/
def pyToLower (c : Char) : Char :=
  if 'A' ≤ c ∧ c ≤ 'Z' then Char.ofNat (c.toNat + 32) else c

/-- Python `str.lower()`. -/
def pyLower (s : Str) : Str := s.map pyToLower

/-- Python `s.split(",")`: split on every comma; n commas give n+1 parts. -/
def splitComma : Str → List Str
  | [] => [[]]
  | c :: rest =>
    match splitComma rest with
    | [] => [[]]
    | p :: ps => if c = ',' then [] :: p :: ps else (c :: p) :: ps

/-- main.py line 36: `set(key.strip() for key in api_keys_env.split(",") if key.strip())`.
    The set is represented as the list of kept (stripped, non-empty) segments;
    membership in the Python set coincides with list membership. -/
def VALID_API_KEYS (api_keys_env : Str) : List Str :=
  ((splitComma api_keys_env).map pyStrip).filter (fun k => !k.isEmpty)

/-- main.py lines 33-36: `os.getenv("API_KEYS")` yields `none` when the variable
    is unset; `if not api_keys_env: raise ValueError(...)` aborts startup when
    the variable is unset or the raw string is empty (Python falsiness);
    otherwise the valid-credential set is built. -/
def startupKeys (api_keys_env : Option Str) : Except Unit (List Str) :=
  match api_keys_env with
  | none => .error ()
  | some s => if s.isEmpty then .error () else .ok (VALID_API_KEYS s)

/-- An HTTP error as raised by `HTTPException(status_code, detail)`. -/
structure HttpError where
  status : Nat
  detail : Str
deriving DecidableEq

/-- The fixed 401 detail message of `verify_api_key` (main.py line 49). -/
def authDetail : Str :=
  "Invalid or missing API Key. Please provide a valid API key in the X-API-Key header.".data

/-- main.py lines 43-50: return the key if it is in the valid set, else 401
    with the fixed detail message. -/
def verify_api_key (valid : List Str) (api_key : Str) : Except HttpError Str :=
  if api_key ∈ valid then .ok api_key
  else .error ⟨401, authDetail⟩

/-- Modelled from the spec: the header-extraction step in front of
    `verify_api_key` (the `APIKeyHeader` dependency of main.py lines 27-28,
    whose body is framework code outside this repository).  Per the spec,
    "a string taken from a fixed request-header name; absent header is
    treated as an empty/missing credential". -/
def headerCredential : Option Str → Str
  | none => []
  | some s => s

/-- The access gate: header extraction followed by `verify_api_key`. -/
def authenticate (valid : List Str) (header : Option Str) : Except HttpError Str :=
  verify_api_key valid (headerCredential header)

/-- A skills catalog (`job_skills` in skills_data.py): a Python dict from
    normalized position names to skill lists, embedded as an insertion-ordered
    association list. -/
abbrev Catalog := List (Str × List Str)

/-- Does `needle` occur at the start of `hay`? -/
def strStarts : Str → Str → Bool
  | [], _ => true
  | _ :: _, [] => false
  | a :: as, b :: bs => a = b && strStarts as bs

/-- Python `needle in hay` for strings: substring containment. -/
def strContains (hay needle : Str) : Bool :=
  match hay with
  | [] => needle.isEmpty
  | c :: rest => strStarts needle (c :: rest) || strContains rest needle

/-- main.py line 169: `normalized_position in key or key in normalized_position`. -/
def bidirMatch (key np : Str) : Bool :=
  strContains key np || strContains np key

/-- Python dict membership plus subscript on the catalog:
    `normalized_position in job_skills` / `job_skills[normalized_position]`. -/
def lookupExact (cat : Catalog) (k : Str) : Option (List Str) :=
  match cat with
  | [] => none
  | (key, skills) :: rest => if key = k then some skills else lookupExact rest k

/-- main.py lines 168-174: iterate `job_skills.items()` in definition order and
    return the first entry passing the bidirectional substring test. -/
def findPartial (cat : Catalog) (np : Str) : Option (Str × List Str) :=
  match cat with
  | [] => none
  | (key, skills) :: rest =>
    if bidirMatch key np then some (key, skills) else findPartial rest np

/-- The `SkillsResponse` model of main.py lines 63-66. -/
structure SkillsResponse where
  position : Str
  skills : List Str
  skills_count : Nat
deriving DecidableEq

/-- The 404 detail message of main.py line 178. -/
def notFoundDetail (position : Str) : Str :=
  "No skills found for position: ".data ++ position ++
    ". Try /api/positions to see available positions.".data

/-- main.py line 156: `position.lower().strip()`. -/
def normalizePos (position : Str) : Str := pyStrip (pyLower position)

/-- main.py lines 150-179: the `/api/skills/{position}` handler, parametric in
    the catalog. Exact match first, then first bidirectional substring match
    in definition order, else 404. -/
def get_skills_for_position (job_skills : Catalog) (position : Str) :
    Except HttpError SkillsResponse :=
  let normalized_position := normalizePos position
  match lookupExact job_skills normalized_position with
  | some skills => .ok ⟨position, skills, skills.length⟩
  | none =>
    match findPartial job_skills normalized_position with
    | some (_, skills) => .ok ⟨position, skills, skills.length⟩
    | none => .error ⟨404, notFoundDetail position⟩

/-- main.py lines 183-207: the `/api/suggestions` handler, parametric in the
    canonical position list (`common_positions`).  Empty or all-whitespace
    query gives an empty suggestion list; otherwise the order-preserving
    case-insensitive substring filter truncated to 10. -/
def get_position_suggestions (common_positions : List Str) (q : Str) :
    List Str × Str :=
  if (pyStrip q).isEmpty then ([], q)
  else
    (((common_positions.filter
        (fun position => strContains (pyLower position) (pyLower q))).take 10), q)

/-- main.py lines 291-324: the hand-maintained category → normalized position
    name mapping of the `/api/all-jobs` handler. -/
def category_mapping : List (Str × List Str) :=
  [ ("Software Development".data,
      ["software developer".data, "software engineer".data,
       "full stack developer".data, "frontend developer".data,
       "backend developer".data, "mobile developer".data]),
    ("Data & AI".data,
      ["data scientist".data, "data analyst".data, "data engineer".data,
       "machine learning engineer".data, "ai engineer".data]),
    ("DevOps & Cloud".data,
      ["devops engineer".data, "cloud engineer".data,
       "system administrator".data, "network engineer".data,
       "database administrator".data]),
    ("Design".data,
      ["ui/ux designer".data, "graphic designer".data, "web designer".data]),
    ("Management".data,
      ["product manager".data, "project manager".data, "scrum master".data]),
    ("Quality Assurance".data,
      ["quality assurance engineer".data, "qa tester".data, "qa engineer".data]),
    ("Security".data,
      ["security engineer".data]),
    ("Business".data,
      ["business analyst".data, "marketing manager".data, "sales manager".data,
       "customer success manager".data, "hr manager".data,
       "financial analyst".data, "accountant".data]),
    ("Content & Marketing".data,
      ["technical writer".data, "content writer".data, "seo specialist".data,
       "digital marketing specialist".data]) ]

/-- main.py lines 326-329 inner loop: keep, in order, the mapped positions that
    are catalog keys, each paired with its skill list. -/
def fillCategory (job_skills : Catalog) : List Str → List (Str × List Str)
  | [] => []
  | p :: rest =>
    match lookupExact job_skills p with
    | some skills => (p, skills) :: fillCategory job_skills rest
    | none => fillCategory job_skills rest

/-- main.py lines 276-334: the `/api/all-jobs` handler, parametric in the
    catalog: per-category filled position→skills mappings, plus
    `total_positions = len(job_skills)`. -/
def get_all_jobs_with_skills (job_skills : Catalog) :
    List (Str × List (Str × List Str)) × Nat :=
  (category_mapping.map (fun cm => (cm.1, fillCategory job_skills cm.2)),
    job_skills.length)

/-- The number of positions actually present in the all-jobs response body. -/
def includedPositionsCount (job_skills : Catalog) : Nat :=
  ((get_all_jobs_with_skills job_skills).1.map (fun c => c.2.length)).sum

/-- All normalized position names mentioned anywhere in `category_mapping`. -/
def mappedPositions : List Str := (category_mapping.map Prod.snd).flatten

end JobPortal

namespace JobPortal

/-- Every key kept by the startup parser is non-empty. -/
theorem mem_VALID_API_KEYS_ne_nil {env : Str} {k : Str}
    (h : k ∈ VALID_API_KEYS env) : k ≠ [] := by
  have h' := List.of_mem_filter h
  simp only [Bool.not_eq_true'] at h'
  intro hk
  subst hk
  simp [List.isEmpty] at h'

/-- `strStarts` holds of a string against itself followed by anything. -/
theorem strStarts_append_self (n b : Str) : strStarts n (n ++ b) = true := by
  induction n with
  | nil => rfl
  | cons c cs ih => simp [strStarts, ih]

/-- `strStarts` is reflexive. -/
theorem strStarts_refl (s : Str) : strStarts s s = true := by
  induction s with
  | nil => rfl
  | cons c cs ih => simp [strStarts, ih]

/-- The empty string is a substring of every string (Python `"" in s`). -/
theorem strContains_nil (hay : Str) : strContains hay [] = true := by
  cases hay with
  | nil => rfl
  | cons c rest => simp [strContains, strStarts]

/-- Every string contains itself. -/
theorem strContains_self (s : Str) : strContains s s = true := by
  cases s with
  | nil => rfl
  | cons c rest => simp [strContains, strStarts_refl]

/-- A string occurring literally between two others is contained in the whole. -/
theorem strContains_of_append (a n b : Str) : strContains (a ++ n ++ b) n = true := by
  induction a with
  | nil =>
    cases n with
    | nil => simpa using strContains_nil b
    | cons c cs => simp [strContains, strStarts, strStarts_append_self]
  | cons c cs ih =>
    have ih' : strContains (cs ++ (n ++ b)) n = true := by
      rw [← List.append_assoc]
      exact ih
    simp [strContains, List.append_assoc, ih']

/-- Containment transfers along an explicit decomposition of the haystack. -/
theorem strContains_of_eq_append {hay : Str} (a n b : Str)
    (h : hay = a ++ n ++ b) : strContains hay n = true := by
  rw [h]
  exact strContains_of_append a n b

/-- `lookupExact` fails exactly when no entry carries the key. -/
theorem lookupExact_eq_none_iff (cat : Catalog) (k : Str) :
    lookupExact cat k = none ↔ ∀ e ∈ cat, e.1 ≠ k := by
  induction cat with
  | nil => simp [lookupExact]
  | cons e rest ih =>
    obtain ⟨key, skills⟩ := e
    by_cases h : key = k <;> simp [lookupExact, h, ih]

/-- `lookupExact` succeeds exactly when the key occurs among the catalog keys. -/
theorem lookupExact_isSome_iff (cat : Catalog) (k : Str) :
    (lookupExact cat k).isSome = true ↔ k ∈ cat.map Prod.fst := by
  induction cat with
  | nil => simp [lookupExact]
  | cons e rest ih =>
    obtain ⟨key, skills⟩ := e
    simp only [List.map_cons, List.mem_cons]
    by_cases h : key = k
    · simp [lookupExact, h]
    · have hstep : lookupExact ((key, skills) :: rest) k = lookupExact rest k := by
        simp [lookupExact, h]
      rw [hstep, ih]
      constructor
      · exact Or.inr
      · rintro (hk | hk)
        · exact absurd hk.symm h
        · exact hk

/-- `findPartial` returns the first entry passing the bidirectional test. -/
theorem findPartial_append (pre post : Catalog) (k : Str) (skills : List Str)
    (np : Str) (hpre : ∀ e ∈ pre, bidirMatch e.1 np = false)
    (hk : bidirMatch k np = true) :
    findPartial (pre ++ (k, skills) :: post) np = some (k, skills) := by
  induction pre with
  | nil => simp [findPartial, hk]
  | cons e rest ih =>
    obtain ⟨key, sk⟩ := e
    have he := hpre (key, sk) (by simp)
    simp only [List.cons_append, findPartial, he]
    simp only [Bool.false_eq_true, if_false]
    exact ih (fun e' he' => hpre e' (by simp [he']))

/-- `findPartial` fails when no entry passes the bidirectional test. -/
theorem findPartial_eq_none (cat : Catalog) (np : Str)
    (h : ∀ e ∈ cat, bidirMatch e.1 np = false) :
    findPartial cat np = none := by
  induction cat with
  | nil => rfl
  | cons e rest ih =>
    obtain ⟨key, sk⟩ := e
    have he := h (key, sk) (by simp)
    simp only [findPartial, he, Bool.false_eq_true, if_false]
    exact ih (fun e' he' => h e' (by simp [he']))

/-- Membership in a filled category: the position was mapped and is a
    catalog key, and the paired skills are its catalog entry. -/
theorem mem_fillCategory (job_skills : Catalog) (ps : List Str) (p : Str)
    (s : List Str) :
    (p, s) ∈ fillCategory job_skills ps ↔
      p ∈ ps ∧ lookupExact job_skills p = some s := by
  induction ps with
  | nil => simp [fillCategory]
  | cons q rest ih =>
    cases hq : lookupExact job_skills q with
    | none =>
      have hfc : fillCategory job_skills (q :: rest) = fillCategory job_skills rest := by
        simp [fillCategory, hq]
      rw [hfc, ih, List.mem_cons]
      constructor
      · rintro ⟨hp, hl⟩
        exact ⟨Or.inr hp, hl⟩
      · rintro ⟨hp | hp, hl⟩
        · subst hp
          rw [hq] at hl
          cases hl
        · exact ⟨hp, hl⟩
    | some sk =>
      have hfc : fillCategory job_skills (q :: rest) =
          (q, sk) :: fillCategory job_skills rest := by
        simp [fillCategory, hq]
      rw [hfc]
      simp only [List.mem_cons, ih, Prod.mk.injEq]
      constructor
      · rintro (⟨hp, hs⟩ | ⟨hp, hl⟩)
        · subst hp
          subst hs
          exact ⟨Or.inl rfl, hq⟩
        · exact ⟨Or.inr hp, hl⟩
      · rintro ⟨hp | hp, hl⟩
        · subst hp
          rw [hq] at hl
          injection hl with hs
          exact Or.inl ⟨rfl, hs.symm⟩
        · exact Or.inr ⟨hp, hl⟩

/-- The size of a filled category counts the mapped positions that are keys. -/
theorem fillCategory_length (job_skills : Catalog) (ps : List Str) :
    (fillCategory job_skills ps).length =
      (ps.filter (fun p => (lookupExact job_skills p).isSome)).length := by
  induction ps with
  | nil => rfl
  | cons q rest ih =>
    cases hq : lookupExact job_skills q <;>
      simp [fillCategory, List.filter_cons, hq, ih]

/-- The total fill size over any mapping equals the size of the filter of the
    flattened mapped positions. -/
theorem sum_fill_eq_filter_length (job_skills : Catalog)
    (m : List (Str × List Str)) :
    ((m.map (fun cm => (fillCategory job_skills cm.2).length)).sum) =
      (((m.map Prod.snd).flatten).filter
        (fun p => (lookupExact job_skills p).isSome)).length := by
  induction m with
  | nil => rfl
  | cons cm rest ih =>
    rw [List.map_cons, List.sum_cons, List.map_cons, List.flatten_cons,
      List.filter_append, List.length_append, fillCategory_length, ih]

/-- The response-body position count, as a filter over `mappedPositions`. -/
theorem includedPositionsCount_eq (job_skills : Catalog) :
    includedPositionsCount job_skills =
      (mappedPositions.filter
        (fun p => (lookupExact job_skills p).isSome)).length := by
  have h := sum_fill_eq_filter_length job_skills category_mapping
  simp only [includedPositionsCount, get_all_jobs_with_skills, List.map_map,
    mappedPositions]
  exact h

/-- The flattened category mapping has no duplicate position names. -/
theorem mappedPositions_nodup : mappedPositions.Nodup := by decide

/-- C1: the access gate succeeds exactly when the presented credential is a
    non-empty string belonging to the valid-credential set built from the
    configuration string (exact, case-sensitive equality), and every failure
    — absent header or a value not in the set — is a 401 carrying the one
    fixed detail message. -/
theorem authenticate_spec (env : Str) (header : Option Str) :
    ((∃ s, authenticate (VALID_API_KEYS env) header = .ok s) ↔
      (∃ s, header = some s ∧ s ≠ [] ∧ s ∈ VALID_API_KEYS env)) ∧
    (∀ e, authenticate (VALID_API_KEYS env) header = .error e →
      e = ⟨401, authDetail⟩) := by
  constructor
  · constructor
    · rintro ⟨s, hs⟩
      cases header with
      | none =>
        by_cases h : ([] : Str) ∈ VALID_API_KEYS env
        · exact absurd rfl (mem_VALID_API_KEYS_ne_nil h)
        · simp [authenticate, headerCredential, verify_api_key, h] at hs
      | some t =>
        by_cases h : t ∈ VALID_API_KEYS env
        · exact ⟨t, rfl, mem_VALID_API_KEYS_ne_nil h, h⟩
        · simp [authenticate, headerCredential, verify_api_key, h] at hs
    · rintro ⟨s, hh, hne, hmem⟩
      subst hh
      exact ⟨s, by simp [authenticate, headerCredential, verify_api_key, hmem]⟩
  · intro e he
    cases header with
    | none =>
      by_cases h : ([] : Str) ∈ VALID_API_KEYS env
      · exact absurd rfl (mem_VALID_API_KEYS_ne_nil h)
      · simp [authenticate, headerCredential, verify_api_key, h] at he
        exact he.symm
    | some t =>
      by_cases h : t ∈ VALID_API_KEYS env
      · simp [authenticate, headerCredential, verify_api_key, h] at he
      · simp [authenticate, headerCredential, verify_api_key, h] at he
        exact he.symm

/-- C1 witness: with configuration string "k1,k2", presenting "k1" succeeds
    and an absent header fails with the fixed 401. -/
theorem authenticate_spec_witness :
    (∃ s, authenticate (VALID_API_KEYS "k1,k2".data) (some "k1".data) = .ok s) ∧
    authenticate (VALID_API_KEYS "k1,k2".data) none = .error ⟨401, authDetail⟩ := by
  constructor
  · exact (authenticate_spec "k1,k2".data (some "k1".data)).1.mpr
      ⟨"k1".data, rfl, by decide, by decide⟩
  · decide

/-- C2 counterexample: the configuration string " " is non-empty, parses to
    zero valid keys, and yet startup does not fail — it succeeds with an
    empty credential set, contradicting the claim that startup fails fatally
    whenever the parse yields zero keys. -/
theorem startup_zero_keys_counterexample :
    VALID_API_KEYS " ".data = [] ∧
    startupKeys (some " ".data) = .ok [] ∧
    startupKeys (some " ".data) ≠ .error () := by decide

/-- C2 (amended): process startup fails fatally exactly when the
    comma-separated credential configuration variable is absent or the raw
    configuration string is empty; a non-empty string that parses to zero
    keys does not abort startup. -/
theorem startupKeys_error_iff (env : Option Str) :
    startupKeys env = .error () ↔ (env = none ∨ env = some []) := by
  cases env with
  | none => simp [startupKeys]
  | some s =>
    cases s with
    | nil => simp [startupKeys, List.isEmpty]
    | cons c cs => simp [startupKeys, List.isEmpty]

/-- C3: whenever the lowercase-trimmed normalization of the input is a
    catalog key, the resolver returns that key's entry immediately — for
    every catalog, so exact match takes priority over any substring
    fallback — with skills_count the length of the entry's list and the raw
    input echoed as the position label. -/
theorem resolve_exact_match (job_skills : Catalog) (position : Str)
    (skills : List Str)
    (h : lookupExact job_skills (normalizePos position) = some skills) :
    get_skills_for_position job_skills position =
      .ok ⟨position, skills, skills.length⟩ := by
  simp [get_skills_for_position, h]

/-- C3 witness: the spec scenario, plus priority of the exact match over an
    earlier substring-matching entry. -/
theorem resolve_exact_match_witness :
    get_skills_for_position
        [("software developer".data, ["Python".data, "SQL".data])]
        "Software Developer".data =
      .ok ⟨"Software Developer".data, ["Python".data, "SQL".data], 2⟩ ∧
    get_skills_for_position
        [("software developer".data, ["Python".data, "SQL".data]),
         ("developer".data, ["coding".data])]
        "Developer".data =
      .ok ⟨"Developer".data, ["coding".data], 1⟩ := by
  constructor
  · exact resolve_exact_match _ _ _ (by decide)
  · exact resolve_exact_match _ _ _ (by decide)

/-- C4: with no exact catalog-key match, the resolver walks the catalog in
    definition order and returns the first entry passing the bidirectional
    substring test (normalized input in key, or key in normalized input),
    echoing the raw input and the entry's skill count. -/
theorem resolve_fallback_first (pre post : Catalog) (k : Str)
    (skills : List Str) (position : Str)
    (hnoexact : ∀ e ∈ pre ++ (k, skills) :: post, e.1 ≠ normalizePos position)
    (hpre : ∀ e ∈ pre, bidirMatch e.1 (normalizePos position) = false)
    (hk : bidirMatch k (normalizePos position) = true) :
    get_skills_for_position (pre ++ (k, skills) :: post) position =
      .ok ⟨position, skills, skills.length⟩ := by
  have hnone :
      lookupExact (pre ++ (k, skills) :: post) (normalizePos position) = none :=
    (lookupExact_eq_none_iff _ _).mpr hnoexact
  simp [get_skills_for_position, hnone,
    findPartial_append pre post k skills _ hpre hk]

/-- C4 witness: "dev" resolves against a catalog with key "developer", and
    "senior software developer" resolves against key "software developer". -/
theorem resolve_fallback_first_witness :
    get_skills_for_position [("developer".data, ["coding".data])] "dev".data =
      .ok ⟨"dev".data, ["coding".data], 1⟩ ∧
    get_skills_for_position
        [("software developer".data, ["Python".data, "SQL".data])]
        "senior software developer".data =
      .ok ⟨"senior software developer".data, ["Python".data, "SQL".data], 2⟩ := by
  constructor
  · exact resolve_fallback_first [] [] "developer".data ["coding".data]
      "dev".data (by decide) (by decide) (by decide)
  · exact resolve_fallback_first [] [] "software developer".data
      ["Python".data, "SQL".data] "senior software developer".data
      (by decide) (by decide) (by decide)

/-- C5: when no catalog entry passes the bidirectional substring test
    against the normalized input (which also rules out any exact key match),
    the resolver fails with 404 and a detail message that contains the raw
    input and the positions-listing endpoint path. -/
theorem resolve_not_found (job_skills : Catalog) (position : Str)
    (h : ∀ e ∈ job_skills, bidirMatch e.1 (normalizePos position) = false) :
    get_skills_for_position job_skills position =
      .error ⟨404, notFoundDetail position⟩ ∧
    strContains (notFoundDetail position) position = true ∧
    strContains (notFoundDetail position) "/api/positions".data = true := by
  refine ⟨?_, ?_, ?_⟩
  · have hnone : lookupExact job_skills (normalizePos position) = none := by
      rw [lookupExact_eq_none_iff]
      intro e he heq
      have hb := h e he
      rw [heq, bidirMatch, strContains_self] at hb
      simp at hb
    simp [get_skills_for_position, hnone, findPartial_eq_none _ _ h]
  · exact strContains_of_eq_append "No skills found for position: ".data
      position ". Try /api/positions to see available positions.".data rfl
  · refine strContains_of_eq_append
      ("No skills found for position: ".data ++ position ++ ". Try ".data)
      "/api/positions".data " to see available positions.".data ?_
    have hsplit : ". Try /api/positions to see available positions.".data =
        ". Try ".data ++ "/api/positions".data ++
          " to see available positions.".data := by decide
    rw [notFoundDetail, hsplit]
    simp [List.append_assoc]

/-- C5 witness: "zzz" matches nothing in a one-entry catalog and yields the
    404 with its message properties. -/
theorem resolve_not_found_witness :
    get_skills_for_position [("developer".data, ["coding".data])] "zzz".data =
      .error ⟨404, notFoundDetail "zzz".data⟩ ∧
    strContains (notFoundDetail "zzz".data) "zzz".data = true ∧
    strContains (notFoundDetail "zzz".data) "/api/positions".data = true :=
  resolve_not_found [("developer".data, ["coding".data])] "zzz".data (by decide)

/-- C6: for a query that is not all-whitespace, the suggestion list is
    exactly the order-preserving case-insensitive substring filter of the
    catalog truncated to its first 10 matches; consequently it has at most
    10 entries, each case-insensitively containing the query, appears in
    catalog definition order (it is a sublist of the catalog), and — when at
    most 10 catalog entries match — contains every matching entry. -/
theorem suggestions_spec (common_positions : List Str) (q : Str)
    (hq : (pyStrip q).isEmpty = false) :
    ((get_position_suggestions common_positions q).1 =
      (common_positions.filter
        (fun p => strContains (pyLower p) (pyLower q))).take 10) ∧
    ((get_position_suggestions common_positions q).1.length ≤ 10) ∧
    (∀ p ∈ (get_position_suggestions common_positions q).1,
        strContains (pyLower p) (pyLower q) = true) ∧
    ((get_position_suggestions common_positions q).1.Sublist common_positions) ∧
    ((common_positions.filter
        (fun p => strContains (pyLower p) (pyLower q))).length ≤ 10 →
      ∀ p ∈ common_positions, strContains (pyLower p) (pyLower q) = true →
        p ∈ (get_position_suggestions common_positions q).1) := by
  have hif : get_position_suggestions common_positions q =
      (((common_positions.filter
          (fun position => strContains (pyLower position) (pyLower q))).take 10),
        q) := by
    simp [get_position_suggestions, hq]
  rw [hif]
  refine ⟨rfl, ?_, ?_, ?_, ?_⟩
  · rw [List.length_take]
    exact min_le_left _ _
  · intro p hp
    have hp' : p ∈ common_positions.filter
        (fun position => strContains (pyLower position) (pyLower q)) :=
      List.mem_of_mem_take hp
    exact (List.mem_filter.mp hp').2
  · exact (List.take_sublist _ _).trans (List.filter_sublist _)
  · intro hlen p hp hpred
    rw [List.take_of_length_le hlen]
    exact List.mem_filter.mpr ⟨hp, hpred⟩

/-- C6 witness: the query "data" against an eleven-match catalog yields
    exactly the first ten matches in definition order. -/
theorem suggestions_spec_witness :
    (get_position_suggestions
        ["Data A".data, "Data B".data, "Data C".data, "Data D".data,
         "Data E".data, "Data F".data, "Data G".data, "Data H".data,
         "Data I".data, "Data J".data, "Data K".data] "data".data).1 =
      ["Data A".data, "Data B".data, "Data C".data, "Data D".data,
       "Data E".data, "Data F".data, "Data G".data, "Data H".data,
       "Data I".data, "Data J".data] := by
  have h := suggestions_spec
    ["Data A".data, "Data B".data, "Data C".data, "Data D".data,
     "Data E".data, "Data F".data, "Data G".data, "Data H".data,
     "Data I".data, "Data J".data, "Data K".data] "data".data (by decide)
  exact h.1.trans (by decide)

/-- C7: the empty query and an all-whitespace query both yield an empty
    suggestion list as an ordinary successful result, for every catalog. -/
theorem suggestions_blank (common_positions : List Str) :
    get_position_suggestions common_positions [] = ([], []) ∧
    get_position_suggestions common_positions "   ".data = ([], "   ".data) := by
  have h1 : (pyStrip ([] : Str)).isEmpty = true := by decide
  have h2 : (pyStrip "   ".data).isEmpty = true := by decide
  simp [get_position_suggestions, h1, h2]

/-- C8: a position appears under some category of the all-jobs view exactly
    when it is listed under that category in the hand-maintained category
    mapping and is a key of the skills catalog; mapped positions missing
    from the catalog are silently absent. -/
theorem all_jobs_membership (job_skills : Catalog) (c p : Str) :
    (∃ entry ∈ (get_all_jobs_with_skills job_skills).1,
        entry.1 = c ∧ ∃ q ∈ entry.2, q.1 = p) ↔
    ((∃ cm ∈ category_mapping, cm.1 = c ∧ p ∈ cm.2) ∧
      p ∈ job_skills.map Prod.fst) := by
  rw [← lookupExact_isSome_iff]
  constructor
  · rintro ⟨entry, hentry, hc, q, hq, hp⟩
    simp only [get_all_jobs_with_skills, List.mem_map] at hentry
    obtain ⟨cm, hcm, hcmeq⟩ := hentry
    subst hcmeq
    subst hp
    have hmem := (mem_fillCategory job_skills cm.2 q.1 q.2).mp hq
    refine ⟨⟨cm, hcm, hc, hmem.1⟩, ?_⟩
    rw [hmem.2]
    rfl
  · rintro ⟨⟨cm, hcm, hc, hp⟩, hsome⟩
    obtain ⟨s, hs⟩ := Option.isSome_iff_exists.mp hsome
    refine ⟨(cm.1, fillCategory job_skills cm.2), ?_, hc, (p, s), ?_, rfl⟩
    · simp only [get_all_jobs_with_skills, List.mem_map]
      exact ⟨cm, hcm, rfl⟩
    · exact (mem_fillCategory job_skills cm.2 p s).mpr ⟨hp, hs⟩

/-- C9: an input that normalizes to the empty string never reaches the 404
    branch on a non-empty catalog — the empty string passes the bidirectional
    substring test against every key — and when no catalog key is itself
    empty, the first entry's skills are returned with the raw whitespace
    input echoed as the label. -/
theorem resolve_empty_normalization (job_skills : Catalog) (position : Str)
    (hnp : normalizePos position = []) :
    (∀ e rest, job_skills = e :: rest →
      ∃ r, get_skills_for_position job_skills position = .ok r) ∧
    (∀ k skills rest, job_skills = (k, skills) :: rest →
      (∀ e ∈ job_skills, e.1 ≠ []) →
      get_skills_for_position job_skills position =
        .ok ⟨position, skills, skills.length⟩) := by
  constructor
  · rintro ⟨k, skills⟩ rest rfl
    cases hl : lookupExact ((k, skills) :: rest) (normalizePos position) with
    | some s =>
      exact ⟨⟨position, s, s.length⟩, by simp [get_skills_for_position, hl]⟩
    | none =>
      have hb : bidirMatch k [] = true := by
        simp [bidirMatch, strContains_nil]
      have hfind : findPartial ((k, skills) :: rest) (normalizePos position) =
          some (k, skills) := by
        rw [hnp]
        simp [findPartial, hb]
      exact ⟨⟨position, skills, skills.length⟩,
        by simp [get_skills_for_position, hl, hfind]⟩
  · rintro k skills rest rfl hkeys
    have hnone :
        lookupExact ((k, skills) :: rest) (normalizePos position) = none := by
      rw [hnp, lookupExact_eq_none_iff]
      exact hkeys
    have hb : bidirMatch k [] = true := by
      simp [bidirMatch, strContains_nil]
    have hfind : findPartial ((k, skills) :: rest) (normalizePos position) =
        some (k, skills) := by
      rw [hnp]
      simp [findPartial, hb]
    simp [get_skills_for_position, hnone, hfind]

/-- C9 witness: the all-whitespace input resolves to the first entry. -/
theorem resolve_empty_normalization_witness :
    get_skills_for_position [("developer".data, ["coding".data])] "   ".data =
      .ok ⟨"   ".data, ["coding".data], 1⟩ :=
  (resolve_empty_normalization [("developer".data, ["coding".data])]
      "   ".data (by decide)).2
    "developer".data ["coding".data] [] rfl (by decide)

/-- C10: total_positions is always the number of catalog keys, and whenever
    some catalog key is mentioned in no category-mapping list, it strictly
    exceeds the number of positions actually present in the response body. -/
theorem all_jobs_total_positions (job_skills : Catalog)
    (hnd : (job_skills.map Prod.fst).Nodup) :
    (get_all_jobs_with_skills job_skills).2 =
      (job_skills.map Prod.fst).length ∧
    ((∃ k ∈ job_skills.map Prod.fst, ∀ cm ∈ category_mapping, k ∉ cm.2) →
      includedPositionsCount job_skills <
        (get_all_jobs_with_skills job_skills).2) := by
  constructor
  · simp [get_all_jobs_with_skills]
  · rintro ⟨k0, hk0, hk0n⟩
    rw [includedPositionsCount_eq]
    have hFnd : (mappedPositions.filter
        (fun p => (lookupExact job_skills p).isSome)).Nodup :=
      mappedPositions_nodup.filter _
    have hFsub : (mappedPositions.filter
        (fun p => (lookupExact job_skills p).isSome)).toFinset ⊆
        (job_skills.map Prod.fst).toFinset := by
      intro p hp
      rw [List.mem_toFinset] at hp ⊢
      exact (lookupExact_isSome_iff job_skills p).mp (List.mem_filter.mp hp).2
    have hk0F : k0 ∉ (mappedPositions.filter
        (fun p => (lookupExact job_skills p).isSome)).toFinset := by
      rw [List.mem_toFinset]
      intro hmem
      have hmp : k0 ∈ mappedPositions := List.mem_of_mem_filter hmem
      rw [mappedPositions, List.mem_flatten] at hmp
      obtain ⟨l, hl, hk⟩ := hmp
      rw [List.mem_map] at hl
      obtain ⟨cm, hcm, rfl⟩ := hl
      exact hk0n cm hcm hk
    have hss : (mappedPositions.filter
        (fun p => (lookupExact job_skills p).isSome)).toFinset ⊂
        (job_skills.map Prod.fst).toFinset := by
      rw [Finset.ssubset_iff_of_subset hFsub]
      exact ⟨k0, List.mem_toFinset.mpr hk0, hk0F⟩
    have hcard := Finset.card_lt_card hss
    rw [List.toFinset_card_of_nodup hFnd,
      List.toFinset_card_of_nodup hnd] at hcard
    have htot : (get_all_jobs_with_skills job_skills).2 =
        (job_skills.map Prod.fst).length := by
      simp [get_all_jobs_with_skills]
    rw [htot]
    exact hcard

/-- C10 witness: a one-key catalog whose key is mapped in no category makes
    the body position count (zero) strictly less than total_positions. -/
theorem all_jobs_total_positions_witness :
    (get_all_jobs_with_skills [("zzz".data, ["s".data])]).2 =
      ([("zzz".data, ["s".data])].map Prod.fst).length ∧
    includedPositionsCount [("zzz".data, ["s".data])] <
      (get_all_jobs_with_skills [("zzz".data, ["s".data])]).2 := by
  have h := all_jobs_total_positions [("zzz".data, ["s".data])] (by decide)
  exact ⟨h.1, h.2 (by decide)⟩

end JobPortal
